import Mathlib

/-!
Verification of the address-decomposition / associative-storage simulation
engine of the comp-sys-exam-helper repository.

The JavaScript sources are shallowly embedded:

* `src/lib/bit.js` — BigInt bit arithmetic and hex parsing.  JS `BigInt`
  values appearing in this code are non-negative, so they are modelled as
  `Nat`.  JS `Number` values that flow into the power-of-two check are
  modelled as `Int` (they are integers produced by `parseInt`); the JS `&`
  operator coerces its operands with ToInt32, which is modelled explicitly
  by reduction modulo `2 ^ 32`.
* `src/modules/cache.js` — the cache simulator (`compute`).
* `src/modules/vm.js` — the VA→PA resolver with optional TLB (`compute`).

JS strings that undergo character-level processing are modelled as
`List Char` (ASCII; the JS `\s` class is modelled by the common ASCII
whitespace characters, which covers every character the address/number
tokens in this application can contain after line splitting).
-/

/-! ## bit.js -/

/-- bit.js `maskBits`: `(1n << BigInt(bits)) - 1n`, and `0n` for `bits <= 0`
(`bits = 0` gives `2 ^ 0 - 1 = 0`, matching the guard). -/
def maskBits (bits : Nat) : Nat := 2 ^ bits - 1

/-- bit.js `clampBigIntToBits`: `x & maskBits(bits)` (the `bits <= 0` guard
returns `0n`, which coincides with `x &&& 0`). -/
def clampBigIntToBits (x : Nat) (bits : Nat) : Nat := x &&& maskBits bits

/-- JS ToUint32: the unsigned 32-bit residue of an integer.  The JS `&`
operator applies ToInt32 to both operands and works on the resulting 32-bit
patterns; `(a & b) === 0` holds exactly when the bitwise AND of the two
unsigned residues is zero. -/
def toUint32 (n : Int) : Nat := (n % (2 : Int) ^ 32).toNat

/-- bit.js `isPowerOfTwo`:
`Number.isInteger(n) && n > 0 && (n & (n - 1)) === 0`.
The argument is an integer wherever this is called (it comes from
`Number.parseInt`), so `Number.isInteger` is modelled by the `Int` domain.
The JS `&` is 32-bit, which is what `toUint32` captures. -/
def isPowerOfTwo (n : Int) : Bool :=
  decide (0 < n) && (Nat.land (toUint32 n) (toUint32 (n - 1)) == 0)

/-- Fuel-based binary logarithm: `floorLog2Aux fuel n = ⌊log₂ n⌋` whenever
`fuel ≥ n` (structural recursion so concrete values reduce). -/
def floorLog2Aux : Nat → Nat → Nat
  | 0, _ => 0
  | fuel + 1, n => if 2 ≤ n then floorLog2Aux fuel (n / 2) + 1 else 0

/-- Computes `⌊log₂ n⌋` (0 for `n = 0` or `1`). -/
def floorLog2 (n : Nat) : Nat := floorLog2Aux n n

/-- bit.js `log2IntPow2`: throws unless `isPowerOfTwo`, otherwise
`Math.log2(n) | 0`.  For every argument accepted by `isPowerOfTwo` that the
application can produce, `Math.log2(n) | 0` equals `⌊log₂ n⌋`, modelled by
`floorLog2`. -/
def log2IntPow2 (n : Int) : Except String Nat :=
  if isPowerOfTwo n then .ok (floorLog2 n.toNat)
  else .error ("Expected power of two, got " ++ toString n)

/-! ### Character-level helpers (JS string primitives used by the parsers) -/

/-- The JS `\s` character class, restricted to ASCII (space, tab, newline,
carriage return, vertical tab, form feed). -/
def isJsWs (c : Char) : Bool :=
  c == ' ' || c == '\t' || c == '\n' || c == '\r' ||
  c == Char.ofNat 11 || c == Char.ofNat 12

/-- JS `String.prototype.trim` (drop leading and trailing whitespace). -/
def trimChars (l : List Char) : List Char :=
  ((l.dropWhile isJsWs).reverse.dropWhile isJsWs).reverse

/-- JS `.replace(/_/g, "").replace(/\s+/g, "")`: global removal of
underscores and whitespace. -/
def stripUnderscoreWs (l : List Char) : List Char :=
  l.filter (fun c => !(c == '_') && !(isJsWs c))

/-- Models `s.startsWith("0x") ? s.slice(2) : s` on an already-lowercased string. -/
def dropHexHead : List Char → List Char
  | '0' :: 'x' :: rest => rest
  | l => l

/-- Hex digit test on a lowercased character (`[0-9a-f]`). -/
def isHexDigitC (c : Char) : Bool :=
  ('0' ≤ c && c ≤ '9') || ('a' ≤ c && c ≤ 'f')

/-- Decimal digit test (`[0-9]`). -/
def isDigitC (c : Char) : Bool := '0' ≤ c && c ≤ '9'

/-- Case-insensitive hex digit test (`[0-9a-f]` under the `i` flag). -/
def isHexDigitCI (c : Char) : Bool :=
  ('0' ≤ c && c ≤ '9') || ('a' ≤ c && c ≤ 'f') || ('A' ≤ c && c ≤ 'F')

/-- Case-insensitive hex letter test (`[a-f]` under the `i` flag). -/
def isHexLetterCI (c : Char) : Bool :=
  ('a' ≤ c && c ≤ 'f') || ('A' ≤ c && c ≤ 'F')

/-- Value of one (lowercased) hex digit. -/
def hexDigitVal (c : Char) : Nat :=
  if c ≤ '9' then c.toNat - '0'.toNat else c.toNat - 'a'.toNat + 10

/-- Value of a lowercased hex digit string (what `BigInt("0x" + s)` computes). -/
def hexVal (l : List Char) : Nat := l.foldl (fun acc c => acc * 16 + hexDigitVal c) 0

/-- Value of a decimal digit string (what `BigInt(t)` computes). -/
def decVal (l : List Char) : Nat := l.foldl (fun acc c => acc * 10 + (c.toNat - '0'.toNat)) 0

/-- The fully preprocessed form of a token inside `parseHexToBigInt`:
trim, lowercase, remove underscores/whitespace, strip one `0x` head. -/
def processedHex (input : List Char) : List Char :=
  dropHexHead (stripUnderscoreWs ((trimChars input).map Char.toLower))

/-- The error message `parseHexToBigInt` throws for a malformed literal:
it names the raw input token. -/
def invalidHexMsg (input : List Char) : String :=
  "Invalid hex address: \"" ++ String.mk input ++ "\""

/-- bit.js `parseHexToBigInt`: trim + lowercase; empty → "Address is empty";
remove `_`/whitespace, strip an optional `0x` head; the remainder must be a
non-empty run of hex digits, otherwise the error names the raw input. -/
def parseHexToBigInt (input : List Char) : Except String Nat :=
  if ((trimChars input).map Char.toLower).isEmpty then .error ("Address is empty")
  else if !(processedHex input).isEmpty && (processedHex input).all isHexDigitC then
    .ok (hexVal (processedHex input))
  else .error (invalidHexMsg input)

/-! ## Claims C1 and C2 -/

/-- Claim C2: for every split with `tagBits + indexBits + offsetBits = addrBits`
and every address already clamped to `addrBits`, the fields extracted the way
`compute` in cache.js extracts them reassemble to the original address:
`(tag <<< (indexBits+offsetBits)) ||| (index <<< offsetBits) ||| offset = a`. -/
theorem c2_decomposition_roundtrip (tagBits indexBits offsetBits addrBits : Nat)
    (hsum : tagBits + indexBits + offsetBits = addrBits)
    (a : Nat) (ha : a < 2 ^ addrBits) :
    ((a >>> (offsetBits + indexBits)) <<< (indexBits + offsetBits)) |||
      (((a >>> offsetBits) &&& maskBits indexBits) <<< offsetBits) |||
      (a &&& maskBits offsetBits) = a := by
  clear hsum ha
  apply Nat.eq_of_testBit_eq
  intro k
  simp only [maskBits, Nat.testBit_or, Nat.testBit_and, Nat.testBit_shiftLeft,
    Nat.testBit_shiftRight, Nat.testBit_two_pow_sub_one]
  rcases Nat.lt_or_ge k offsetBits with h1 | h1
  · have d1 : ¬ (indexBits + offsetBits ≤ k) := by omega
    have d2 : ¬ (offsetBits ≤ k) := by omega
    simp [d1, d2, h1]
  · rcases Nat.lt_or_ge k (offsetBits + indexBits) with h2 | h2
    · have d1 : ¬ (indexBits + offsetBits ≤ k) := by omega
      have d2 : offsetBits ≤ k := h1
      have d3 : ¬ (k < offsetBits) := by omega
      have d4 : k - offsetBits < indexBits := by omega
      have e1 : offsetBits + (k - offsetBits) = k := by omega
      simp [d1, d2, d3, d4, e1]
    · have d1 : indexBits + offsetBits ≤ k := by omega
      have d3 : ¬ (k < offsetBits) := by omega
      have d4 : ¬ (k - offsetBits < indexBits) := by omega
      have e1 : offsetBits + indexBits + (k - (indexBits + offsetBits)) = k := by omega
      have d2 : offsetBits ≤ k := by omega
      simp [d1, d2, d3, d4, e1]

/-- Witness for C2 at a concrete split and address. -/
theorem c2_witness :
    (22 + 6 + 4 = 32) ∧ (0x12345678 < 2 ^ 32) ∧
    ((0x12345678 >>> (4 + 6)) <<< (6 + 4)) |||
      (((0x12345678 >>> 4) &&& maskBits 6) <<< 4) |||
      (0x12345678 &&& maskBits 4) = 0x12345678 :=
  ⟨by decide, by decide,
    c2_decomposition_roundtrip 22 6 4 32 (by decide) 0x12345678 (by decide)⟩

/-! ## Generic associative-store helpers

`cache.js` and `vm.js` contain textually identical copies of
`pickVictimLRU`, differing only in the (duck-typed) shape of the line
records.  The embedding is generic over the line type, taking the `valid`
and `lastUsed` projections as parameters. -/

/-- JS `Array.prototype.findIndex`, as an `Option`-returning index scan
(`none` for `-1`). -/
def findFirstIdx {α : Type} (p : α → Bool) : List α → Option Nat
  | [] => none
  | a :: as => if p a then some 0 else (findFirstIdx p as).map (· + 1)

/-- The scanning loop of `pickVictimLRU`:
`best = 0; for i in 1..: if lines[i].lastUsed < lines[best].lastUsed best = i`.
`i` is the index of the head of the remaining list, `best` the current best
index and `bestLU` its `lastUsed` value (the lines are not mutated during
the scan, so carrying the value is faithful). -/
def scanMinLU {α : Type} (lu : α → Nat) : List α → Nat → Nat → Nat → Nat
  | [], _, best, _ => best
  | l :: ls, i, best, bestLU =>
    if lu l < bestLU then scanMinLU lu ls (i + 1) i (lu l)
    else scanMinLU lu ls (i + 1) best bestLU

/-- Models `pickVictimLRU` (identical in vm.js and cache.js): first invalid line if
any, else the linear LRU scan starting from line 0. -/
def pickVictimLRU {α : Type} (valid : α → Bool) (lu : α → Nat) (lines : List α) : Nat :=
  match findFirstIdx (fun x => !valid x) lines with
  | some i => i
  | none =>
    match lines with
    | [] => 0
    | l :: ls => scanMinLU lu ls 1 0 (lu l)

/-! ## cache.js -/

/-- A cache line: `{ valid: false, tag: 0n, lastUsed: 0 }`. -/
structure CacheLine where
  valid : Bool
  tag : Nat
  lastUsed : Nat
deriving DecidableEq, Repr

/-- cache.js `initCache`: `numSets` sets of `assoc` invalid lines. -/
def initCache (numSets assoc : Nat) : List (List CacheLine) :=
  List.replicate numSets (List.replicate assoc ⟨false, 0, 0⟩)

/-- The derived cache configuration (`compute` lines 804–831). -/
structure CacheConfig where
  addrBits : Nat
  offsetBits : Nat
  indexBits : Nat
  tagBits : Nat
  numSets : Nat
  assoc : Nat
deriving DecidableEq, Repr

/-- cache.js `compute` configuration validation and bit-split derivation,
with the checks in source order. -/
def cacheDerive (addrBits cacheSize blockSize assoc : Int) : Except String CacheConfig :=
  if addrBits ≤ 0 || 64 < addrBits then .error ("addrBits must be between 1 and 64.")
  else if cacheSize ≤ 0 then .error ("cacheSize must be > 0")
  else if blockSize ≤ 0 then .error ("blockSize must be > 0")
  else if assoc ≤ 0 then .error ("associativity must be > 0")
  else if !isPowerOfTwo blockSize then .error ("blockSize must be a power of two")
  else if cacheSize % blockSize ≠ 0 then .error ("cacheSize must be divisible by blockSize")
  else
    let numBlocks := cacheSize / blockSize
    if numBlocks % assoc ≠ 0 then .error ("blocks must be divisible by associativity")
    else
      let numSets := numBlocks / assoc
      if !isPowerOfTwo numSets then
        .error ("Number of sets is not a power of two. Check your parameters.")
      else
        match log2IntPow2 blockSize with
        | .error e => .error e
        | .ok offsetBits =>
          match (if numSets == 1 then .ok 0 else log2IntPow2 numSets :
              Except String Nat) with
          | .error e => .error e
          | .ok indexBits =>
            let tagBits : Int := addrBits - offsetBits - indexBits
            if tagBits < 0 then .error ("Invalid bit split: tagBits became negative.")
            else .ok ⟨addrBits.toNat, offsetBits, indexBits, tagBits.toNat,
              numSets.toNat, assoc.toNat⟩

/-- One per-access trace entry of the cache simulator. -/
structure CacheRecord where
  tag : Nat
  index : Nat
  offset : Nat
  setIdx : Nat
  way : Nat
  hit : Bool
  evicted : Option Nat
deriving DecidableEq, Repr

/-- The mutable state of a cache run: the sets plus `time`/`hits`/`misses`. -/
structure CacheState where
  sets : List (List CacheLine)
  time : Nat
  hits : Nat
  misses : Nat
deriving DecidableEq, Repr

/-- One iteration of the access loop of cache.js `compute` (lines 857–888):
field extraction, set lookup, hit touch or miss fill with LRU eviction. -/
def cacheAccess (cfg : CacheConfig) (st : CacheState) (a : Nat) : CacheState × CacheRecord :=
  let time := st.time + 1
  let offset := a &&& maskBits cfg.offsetBits
  let index := if cfg.indexBits = 0 then 0 else (a >>> cfg.offsetBits) &&& maskBits cfg.indexBits
  let tag := a >>> (cfg.offsetBits + cfg.indexBits)
  let setIdx := index
  let setLines := st.sets.getD setIdx []
  match findFirstIdx (fun ln => ln.valid && ln.tag == tag) setLines with
  | some w =>
    let ln := setLines.getD w ⟨false, 0, 0⟩
    let setLines2 := setLines.set w ⟨ln.valid, ln.tag, time⟩
    (⟨st.sets.set setIdx setLines2, time, st.hits + 1, st.misses⟩,
     ⟨tag, index, offset, setIdx, w, true, none⟩)
  | none =>
    let victim := pickVictimLRU (fun l => l.valid) (fun l => l.lastUsed) setLines
    let old := setLines.getD victim ⟨false, 0, 0⟩
    let evicted := if old.valid then some old.tag else none
    let setLines2 := setLines.set victim ⟨true, tag, time⟩
    (⟨st.sets.set setIdx setLines2, time, st.hits, st.misses + 1⟩,
     ⟨tag, index, offset, setIdx, victim, false, evicted⟩)

/-- The access loop of cache.js `compute`, accumulating the trace. -/
def cacheRun (cfg : CacheConfig) (st0 : CacheState) (addrs : List Nat) :
    CacheState × List CacheRecord :=
  addrs.foldl
    (fun acc a =>
      let step := cacheAccess cfg acc.1 a
      (step.1, acc.2 ++ [step.2]))
    (st0, [])

/-- A complete cache run from the freshly initialised store, with the
addresses clamped to `addrBits` first as in `compute`. -/
def cacheSimulate (cfg : CacheConfig) (addrs : List Nat) : CacheState × List CacheRecord :=
  cacheRun cfg ⟨initCache cfg.numSets cfg.assoc, 0, 0, 0⟩
    (addrs.map (fun a => clampBigIntToBits a cfg.addrBits))

/-- cache.js `compute` summary: `total === 0 ? 0 : (hits / total) * 100`
(the division is exact rational arithmetic in the model). -/
def cacheHitRate (hits misses : Nat) : ℚ :=
  if hits + misses = 0 then 0 else ((hits : ℚ) / ((hits : ℚ) + (misses : ℚ))) * 100

/-- Claim C3: with `addrBits=32, cacheSize=1024, blockSize=16, associativity=1`
the derived split is `offsetBits=4, numSets=64, indexBits=6, tagBits=22`, and
the addresses `0x0, 0x4, 0x10, 0x0` produce `MISS, HIT, MISS, HIT` with no
valid line ever evicted. -/
theorem c3_direct_mapped_scenario :
    cacheDerive 32 1024 16 1 = .ok ⟨32, 4, 6, 22, 64, 1⟩ ∧
    ((cacheSimulate ⟨32, 4, 6, 22, 64, 1⟩ [0x0, 0x4, 0x10, 0x0]).2.map
        (fun r => r.hit) = [false, true, false, true]) ∧
    ((cacheSimulate ⟨32, 4, 6, 22, 64, 1⟩ [0x0, 0x4, 0x10, 0x0]).2.map
        (fun r => r.evicted) = [none, none, none, none]) := by
  refine ⟨by rfl, by rfl, by rfl⟩

instance : Inhabited CacheLine := ⟨⟨false, 0, 0⟩⟩

/-- An in-range `getD` produces a member of the list. -/
theorem getD_mem_of_lt {α : Type} (l : List α) (i : Nat) (d : α) (h : i < l.length) :
    l.getD i d ∈ l := by
  induction l generalizing i with
  | nil => simp at h
  | cons a as ih =>
    cases i with
    | zero => simp
    | succ n =>
      simp only [List.getD_cons_succ]
      exact List.mem_cons_of_mem _ (ih n (by simpa using h))

/-- Lemma: `findFirstIdx` returns the first index satisfying the predicate. -/
theorem findFirstIdx_some_spec {α : Type} [Inhabited α] (p : α → Bool) :
    ∀ (l : List α) (i : Nat), findFirstIdx p l = some i →
      i < l.length ∧ p (l.getD i default) = true ∧
        ∀ j, j < i → p (l.getD j default) = false := by
  intro l
  induction l with
  | nil => intro i h; simp [findFirstIdx] at h
  | cons a as ih =>
    intro i h
    by_cases hp : p a
    · simp [findFirstIdx, hp] at h
      subst h
      exact ⟨by simp, by simpa using hp, by omega⟩
    · simp only [findFirstIdx, if_neg hp, Option.map_eq_some'] at h
      obtain ⟨j, hj, rfl⟩ := h
      obtain ⟨h1, h2, h3⟩ := ih j hj
      refine ⟨by simp; omega, by simpa using h2, ?_⟩
      intro m hm
      cases m with
      | zero => simpa using eq_false_of_ne_true hp
      | succ n => simpa using h3 n (by omega)

/-- When `findFirstIdx` finds nothing, no element satisfies the predicate. -/
theorem findFirstIdx_none_spec {α : Type} (p : α → Bool) :
    ∀ (l : List α), findFirstIdx p l = none → ∀ x ∈ l, p x = false := by
  intro l
  induction l with
  | nil => intro _ x hx; simp at hx
  | cons a as ih =>
    intro h x hx
    by_cases hp : p a
    · simp [findFirstIdx, hp] at h
    · simp only [findFirstIdx, if_neg hp, Option.map_eq_none'] at h
      rcases List.mem_cons.mp hx with rfl | hx
      · exact eq_false_of_ne_true hp
      · exact ih h x hx

/-- Loop invariant proof for the LRU scan: starting from a best index with
its value, scanning the remainder of the list yields the first index of the
global minimum (strictly smaller `lastUsed` values win, ties keep the
earlier index). -/
theorem scanMinLU_go {α : Type} [Inhabited α] (lu : α → Nat) (full : List α) :
    ∀ (ls : List α) (i best bestLU : Nat),
      i + ls.length = full.length →
      (∀ k, k < ls.length → ls.getD k default = full.getD (i + k) default) →
      best < i →
      lu (full.getD best default) = bestLU →
      (∀ j, j < i → bestLU ≤ lu (full.getD j default)) →
      (∀ j, j < best → bestLU < lu (full.getD j default)) →
      scanMinLU lu ls i best bestLU < full.length ∧
      (∀ j, j < full.length →
        lu (full.getD (scanMinLU lu ls i best bestLU) default) ≤ lu (full.getD j default)) ∧
      (∀ j, j < scanMinLU lu ls i best bestLU →
        lu (full.getD (scanMinLU lu ls i best bestLU) default) < lu (full.getD j default)) := by
  intro ls
  induction ls with
  | nil =>
    intro i best bestLU hlen _ hbi hbLU hmin hstrict
    simp only [scanMinLU]
    simp only [List.length_nil, Nat.add_zero] at hlen
    refine ⟨by omega, ?_, ?_⟩
    · intro j hj
      rw [hbLU]
      exact hmin j (by omega)
    · intro j hj
      rw [hbLU]
      exact hstrict j hj
  | cons l ls ih =>
    intro i best bestLU hlen helem hbi hbLU hmin hstrict
    have hl : l = full.getD i default := by
      have := helem 0 (by simp)
      simpa using this
    have hlen2 : i + 1 + ls.length = full.length := by
      simp only [List.length_cons] at hlen; omega
    have helem2 : ∀ k, k < ls.length → ls.getD k default = full.getD (i + 1 + k) default := by
      intro k hk
      have := helem (k + 1) (by simp; omega)
      simpa [Nat.add_comm, Nat.add_assoc, Nat.add_left_comm] using this
    simp only [scanMinLU]
    by_cases hcmp : lu l < bestLU
    · rw [if_pos hcmp]
      refine ih (i + 1) i (lu l) hlen2 helem2 (by omega) (by rw [← hl]) ?_ ?_
      · intro j hj
        rcases Nat.lt_or_ge j i with hji | hji
        · exact Nat.le_of_lt (Nat.lt_of_lt_of_le hcmp (hmin j hji))
        · have : j = i := by omega
          subst this
          rw [← hl]
      · intro j hj
        exact Nat.lt_of_lt_of_le hcmp (hmin j hj)
    · rw [if_neg hcmp]
      refine ih (i + 1) best bestLU hlen2 helem2 (by omega) hbLU ?_ hstrict
      intro j hj
      rcases Nat.lt_or_ge j i with hji | hji
      · exact hmin j hji
      · have : j = i := by omega
        subst this
        rw [← hl]
        omega

/-- Claim C5: `pickVictimLRU` (the identical function in vm.js and cache.js,
generic over the line record shape) returns the first invalid line when one
exists, and otherwise the index of the line with the minimum `lastUsed`,
with ties broken towards the lowest index (every line before the result has
a strictly larger `lastUsed`). -/
theorem c5_pickVictimLRU_spec {α : Type} [Inhabited α] (valid : α → Bool) (lu : α → Nat)
    (lines : List α) (hne : lines ≠ []) :
    pickVictimLRU valid lu lines < lines.length ∧
    ((∃ x ∈ lines, valid x = false) →
      valid (lines.getD (pickVictimLRU valid lu lines) default) = false ∧
      ∀ m, m < pickVictimLRU valid lu lines → valid (lines.getD m default) = true) ∧
    ((∀ x ∈ lines, valid x = true) →
      (∀ j, j < lines.length →
        lu (lines.getD (pickVictimLRU valid lu lines) default) ≤ lu (lines.getD j default)) ∧
      (∀ j, j < pickVictimLRU valid lu lines →
        lu (lines.getD (pickVictimLRU valid lu lines) default) < lu (lines.getD j default))) := by
  cases hf : findFirstIdx (fun x => !valid x) lines with
  | some i =>
    have hr : pickVictimLRU valid lu lines = i := by
      simp [pickVictimLRU, hf]
    obtain ⟨h1, h2, h3⟩ := findFirstIdx_some_spec (fun x => !valid x) lines i hf
    rw [hr]
    refine ⟨h1, ?_, ?_⟩
    · intro _
      constructor
      · simpa using h2
      · intro m hm
        simpa using h3 m hm
    · intro hall
      have hv := hall (lines.getD i default) (getD_mem_of_lt lines i default h1)
      rw [hv] at h2
      simp at h2
  | none =>
    have hallv : ∀ x ∈ lines, valid x = true := by
      intro x hx
      have := findFirstIdx_none_spec (fun x => !valid x) lines hf x hx
      simpa using this
    cases lines with
    | nil => exact absurd rfl hne
    | cons l ls =>
      have hr : pickVictimLRU valid lu (l :: ls) = scanMinLU lu ls 1 0 (lu l) := by
        simp [pickVictimLRU, hf]
      obtain ⟨h1, h2, h3⟩ := scanMinLU_go lu (l :: ls) ls 1 0 (lu l)
        (by simp; omega) (by intro k hk; simp [Nat.add_comm]) (by omega) (by simp)
        (by intro j hj; interval_cases j <;> simp) (by omega)
      rw [hr]
      refine ⟨h1, ?_, fun _ => ⟨h2, h3⟩⟩
      intro ⟨x, hx, hvx⟩
      have := hallv x hx
      rw [this] at hvx
      exact absurd hvx (by simp)

/-- The concrete line list used by the C5 witness: all lines valid, with a
tie on the minimum `lastUsed` between indices 1 and 2. -/
def c5SampleLines : List CacheLine := [⟨true, 7, 5⟩, ⟨true, 8, 3⟩, ⟨true, 9, 3⟩]

/-- Witness for C5 on a concrete line list (the victim must be index 1). -/
theorem c5_witness :
    (c5SampleLines ≠ []) ∧
    (pickVictimLRU (fun l : CacheLine => l.valid) (fun l : CacheLine => l.lastUsed)
        c5SampleLines < c5SampleLines.length ∧
    ((∃ x ∈ c5SampleLines, x.valid = false) →
      (c5SampleLines.getD
          (pickVictimLRU (fun l : CacheLine => l.valid) (fun l : CacheLine => l.lastUsed)
            c5SampleLines) default).valid = false ∧
      ∀ m, m < pickVictimLRU (fun l : CacheLine => l.valid)
          (fun l : CacheLine => l.lastUsed) c5SampleLines →
        (c5SampleLines.getD m default).valid = true) ∧
    ((∀ x ∈ c5SampleLines, x.valid = true) →
      (∀ j, j < c5SampleLines.length →
        (c5SampleLines.getD
            (pickVictimLRU (fun l : CacheLine => l.valid) (fun l : CacheLine => l.lastUsed)
              c5SampleLines) default).lastUsed ≤
          (c5SampleLines.getD j default).lastUsed) ∧
      (∀ j, j < pickVictimLRU (fun l : CacheLine => l.valid)
          (fun l : CacheLine => l.lastUsed) c5SampleLines →
        (c5SampleLines.getD
            (pickVictimLRU (fun l : CacheLine => l.valid) (fun l : CacheLine => l.lastUsed)
              c5SampleLines) default).lastUsed <
          (c5SampleLines.getD j default).lastUsed))) :=
  ⟨by decide, c5_pickVictimLRU_spec (fun l : CacheLine => l.valid)
    (fun l : CacheLine => l.lastUsed) c5SampleLines (by decide)⟩

/-! ### Counter bookkeeping (claim C7) -/

/-- Computes `getD` of a `set`, fully case-analysed. -/
theorem getD_set {α : Type} (l : List α) (w : Nat) (x : α) (k : Nat) (d : α) :
    (l.set w x).getD k d = if w = k ∧ w < l.length then x else l.getD k d := by
  induction l generalizing w k with
  | nil => simp
  | cons a as ih =>
    cases w with
    | zero =>
      cases k with
      | zero => simp
      | succ k2 => simp
    | succ w2 =>
      cases k with
      | zero => simp
      | succ k2 =>
        simp only [List.set_cons_succ, List.getD_cons_succ, List.length_cons]
        rw [ih]
        by_cases h : w2 = k2 ∧ w2 < as.length
        · rw [if_pos h, if_pos (by omega)]
        · rw [if_neg h, if_neg (by omega)]

/-- Lemma: `getD` out of range returns the default. -/
theorem getD_oob {α : Type} (l : List α) (i : Nat) (d : α) (h : l.length ≤ i) :
    l.getD i d = d := by
  induction l generalizing i with
  | nil => simp
  | cons a as ih =>
    cases i with
    | zero => simp at h
    | succ n => simpa using ih n (by simpa using h)

/-- Lemma: `getD` of a replicated list. -/
theorem getD_replicate {α : Type} (n : Nat) (x : α) (k : Nat) (d : α) :
    (List.replicate n x).getD k d = if k < n then x else d := by
  induction n generalizing k with
  | zero => simp
  | succ m ih =>
    cases k with
    | zero => simp
    | succ k2 =>
      simp only [List.replicate_succ, List.getD_cons_succ]
      rw [ih]
      by_cases h : k2 < m
      · rw [if_pos h, if_pos (by omega)]
      · rw [if_neg h, if_neg (by omega)]

/-- Every access increments exactly one of the two counters. -/
theorem cacheAccess_counts (cfg : CacheConfig) (st : CacheState) (a : Nat) :
    (cacheAccess cfg st a).1.hits + (cacheAccess cfg st a).1.misses
      = st.hits + st.misses + 1 := by
  simp only [cacheAccess]
  split <;> simp <;> omega

/-- The state component of the access fold does not depend on the trace
accumulator. -/
theorem cacheFoldState (cfg : CacheConfig) :
    ∀ (addrs : List Nat) (st : CacheState) (rs1 rs2 : List CacheRecord),
      (addrs.foldl
        (fun acc a =>
          let step := cacheAccess cfg acc.1 a
          (step.1, acc.2 ++ [step.2])) (st, rs1)).1 =
      (addrs.foldl
        (fun acc a =>
          let step := cacheAccess cfg acc.1 a
          (step.1, acc.2 ++ [step.2])) (st, rs2)).1 := by
  intro addrs
  induction addrs with
  | nil => intro st rs1 rs2; rfl
  | cons a as ih =>
    intro st rs1 rs2
    simp only [List.foldl_cons]
    exact ih (cacheAccess cfg st a).1 _ _

/-- Unrolling one access of `cacheRun` at the state level. -/
theorem cacheRun_state_cons (cfg : CacheConfig) (st : CacheState) (a : Nat) (as : List Nat) :
    (cacheRun cfg st (a :: as)).1 = (cacheRun cfg (cacheAccess cfg st a).1 as).1 := by
  unfold cacheRun
  simp only [List.foldl_cons]
  exact cacheFoldState cfg as (cacheAccess cfg st a).1 _ _

/-- Counter identity over a whole run. -/
theorem cacheRun_counts (cfg : CacheConfig) :
    ∀ (addrs : List Nat) (st : CacheState),
      (cacheRun cfg st addrs).1.hits + (cacheRun cfg st addrs).1.misses
        = st.hits + st.misses + addrs.length := by
  intro addrs
  induction addrs with
  | nil => intro st; rfl
  | cons a as ih =>
    intro st
    rw [cacheRun_state_cons, ih]
    have := cacheAccess_counts cfg st a
    simp only [List.length_cons]
    omega

/-- Claim C7: for every cache run, `hits + misses` equals the number of
processed addresses, and the reported hit rate is
`hits / (hits + misses)` (as a percentage), with `0` reported for an empty
run. -/
theorem c7_hit_rate_bounds (cfg : CacheConfig) (addrs : List Nat) :
    (cacheSimulate cfg addrs).1.hits + (cacheSimulate cfg addrs).1.misses = addrs.length ∧
    (addrs = [] →
      cacheHitRate (cacheSimulate cfg addrs).1.hits (cacheSimulate cfg addrs).1.misses = 0) ∧
    (addrs ≠ [] →
      cacheHitRate (cacheSimulate cfg addrs).1.hits (cacheSimulate cfg addrs).1.misses
        = ((cacheSimulate cfg addrs).1.hits : ℚ) / (addrs.length : ℚ) * 100) := by
  have hsum : (cacheSimulate cfg addrs).1.hits + (cacheSimulate cfg addrs).1.misses
      = addrs.length := by
    unfold cacheSimulate
    rw [cacheRun_counts]
    simp
  refine ⟨hsum, ?_, ?_⟩
  · intro he
    subst he
    unfold cacheHitRate
    rw [if_pos (by simpa using hsum)]
  · intro hne
    have hlen : addrs.length ≠ 0 := by
      simpa [List.length_eq_zero] using hne
    unfold cacheHitRate
    rw [if_neg (by omega)]
    have hcast : ((cacheSimulate cfg addrs).1.hits : ℚ) + ((cacheSimulate cfg addrs).1.misses : ℚ)
        = (addrs.length : ℚ) := by
      exact_mod_cast hsum
    rw [hcast]

/-- Witness for C7 at the concrete configuration and address list of the
direct-mapped scenario. -/
theorem c7_witness :
    (cacheSimulate ⟨32, 4, 6, 22, 64, 1⟩ [0x0, 0x4]).1.hits +
      (cacheSimulate ⟨32, 4, 6, 22, 64, 1⟩ [0x0, 0x4]).1.misses = [0x0, 0x4].length ∧
    (([0x0, 0x4] : List Nat) = [] →
      cacheHitRate (cacheSimulate ⟨32, 4, 6, 22, 64, 1⟩ [0x0, 0x4]).1.hits
        (cacheSimulate ⟨32, 4, 6, 22, 64, 1⟩ [0x0, 0x4]).1.misses = 0) ∧
    (([0x0, 0x4] : List Nat) ≠ [] →
      cacheHitRate (cacheSimulate ⟨32, 4, 6, 22, 64, 1⟩ [0x0, 0x4]).1.hits
        (cacheSimulate ⟨32, 4, 6, 22, 64, 1⟩ [0x0, 0x4]).1.misses
        = ((cacheSimulate ⟨32, 4, 6, 22, 64, 1⟩ [0x0, 0x4]).1.hits : ℚ) /
          (([0x0, 0x4] : List Nat).length : ℚ) * 100) :=
  c7_hit_rate_bounds ⟨32, 4, 6, 22, 64, 1⟩ [0x0, 0x4]

/-! ### Tag uniqueness invariant (claim C9) -/

/-- No two distinct valid lines of a set share a tag. -/
def TagsUnique (ls : List CacheLine) : Prop :=
  ∀ i j, i < ls.length → j < ls.length → i ≠ j →
    (ls.getD i default).valid = true → (ls.getD j default).valid = true →
    (ls.getD i default).tag ≠ (ls.getD j default).tag

/-- Tag uniqueness for every set of the store. -/
def SetsInv (sets : List (List CacheLine)) : Prop := ∀ s ∈ sets, TagsUnique s

/-- Overwriting a slot with a line carrying the same `valid`/`tag` (only the
recency differs) preserves tag uniqueness. -/
theorem tagsUnique_set_same_slot (ls : List CacheLine) (w : Nat) (x : CacheLine)
    (hu : TagsUnique ls)
    (hv : x.valid = (ls.getD w default).valid) (ht : x.tag = (ls.getD w default).tag) :
    TagsUnique (ls.set w x) := by
  intro i j hi hj hne hvi hvj
  simp only [List.length_set] at hi hj
  rw [getD_set ls w x i default] at hvi
  rw [getD_set ls w x j default] at hvj
  rw [getD_set ls w x i default, getD_set ls w x j default]
  by_cases hwi : w = i ∧ w < ls.length <;> by_cases hwj : w = j ∧ w < ls.length
  · omega
  · rw [if_pos hwi] at hvi ⊢
    rw [if_neg hwj] at hvj ⊢
    rw [hv] at hvi
    rw [ht]
    obtain ⟨rfl, _⟩ := hwi
    exact hu w j hi hj hne hvi hvj
  · rw [if_neg hwi] at hvi ⊢
    rw [if_pos hwj] at hvj ⊢
    rw [hv] at hvj
    rw [ht]
    obtain ⟨rfl, _⟩ := hwj
    exact hu i w hi hj hne hvi hvj
  · rw [if_neg hwi] at hvi ⊢
    rw [if_neg hwj] at hvj ⊢
    exact hu i j hi hj hne hvi hvj

/-- The hit-path update of `cacheAccess` (same `valid` and `tag`, new
recency) preserves tag uniqueness. -/
theorem tagsUnique_touch (ls : List CacheLine) (w t : Nat) (hu : TagsUnique ls) :
    TagsUnique (ls.set w
      ⟨(ls.getD w ⟨false, 0, 0⟩).valid, (ls.getD w ⟨false, 0, 0⟩).tag, t⟩) :=
  tagsUnique_set_same_slot ls w
    ⟨(ls.getD w ⟨false, 0, 0⟩).valid, (ls.getD w ⟨false, 0, 0⟩).tag, t⟩ hu rfl rfl

/-- Filling any slot with a tag that no valid line of the set carries
preserves tag uniqueness. -/
theorem tagsUnique_fill (ls : List CacheLine) (v tg t : Nat) (hu : TagsUnique ls)
    (hnone : ∀ k, k < ls.length →
      ¬((ls.getD k default).valid = true ∧ (ls.getD k default).tag = tg)) :
    TagsUnique (ls.set v ⟨true, tg, t⟩) := by
  intro i j hi hj hne hvi hvj
  simp only [List.length_set] at hi hj
  rw [getD_set ls v _ i default] at hvi
  rw [getD_set ls v _ j default] at hvj
  rw [getD_set ls v _ i default, getD_set ls v _ j default]
  by_cases hwi : v = i ∧ v < ls.length <;> by_cases hwj : v = j ∧ v < ls.length
  · omega
  · rw [if_pos hwi] at hvi ⊢
    rw [if_neg hwj] at hvj ⊢
    intro hcontra
    exact hnone j hj ⟨hvj, by simpa using hcontra.symm⟩
  · rw [if_neg hwi] at hvi ⊢
    rw [if_pos hwj] at hvj ⊢
    intro hcontra
    exact hnone i hi ⟨hvi, by simpa using hcontra⟩
  · rw [if_neg hwi] at hvi ⊢
    rw [if_neg hwj] at hvj ⊢
    exact hu i j hi hj hne hvi hvj

/-- The empty set and any set the store invariant covers stay unique after
an access: one cache access preserves the store invariant. -/
theorem cacheAccess_setsInv (cfg : CacheConfig) (st : CacheState) (a : Nat)
    (h : SetsInv st.sets) : SetsInv (cacheAccess cfg st a).1.sets := by
  have hcur : ∀ idx, TagsUnique (st.sets.getD idx []) := by
    intro idx
    rcases Nat.lt_or_ge idx st.sets.length with hlt | hge
    · exact h _ (getD_mem_of_lt _ _ _ hlt)
    · rw [getD_oob _ _ _ hge]
      intro i j hi
      simp at hi
  have hset : ∀ (idx : Nat) (newSet : List CacheLine), TagsUnique newSet →
      SetsInv (st.sets.set idx newSet) := by
    intro idx newSet hnew s hs
    rcases List.mem_or_eq_of_mem_set hs with hs2 | rfl
    · exact h s hs2
    · exact hnew
  simp only [cacheAccess]
  cases hf : findFirstIdx
      (fun ln => ln.valid && ln.tag == a >>> (cfg.offsetBits + cfg.indexBits))
      (st.sets.getD
        (if cfg.indexBits = 0 then 0 else a >>> cfg.offsetBits &&& maskBits cfg.indexBits) []) with
  | some w =>
    exact hset _ _ (tagsUnique_touch _ w (st.time + 1) (hcur _))
  | none =>
    apply hset
    apply tagsUnique_fill _ _ _ _ (hcur _)
    intro k hk hcontra
    have hmem := getD_mem_of_lt _ k (default : CacheLine) hk
    have hb := findFirstIdx_none_spec _ _ hf _ hmem
    rw [hcontra.1, hcontra.2] at hb
    simp at hb

/-- Claim C9: starting from the all-invalid store `initCache` builds, after
any access sequence no set of the cache contains two distinct valid lines
with the same tag — the caller obligation the spec states is maintained by
the simulator for unseeded runs. -/
theorem c9_no_duplicate_tags (cfg : CacheConfig) (addrs : List Nat) :
    SetsInv (cacheSimulate cfg addrs).1.sets := by
  unfold cacheSimulate
  have hinit : SetsInv (initCache cfg.numSets cfg.assoc) := by
    intro s hs
    have := List.eq_of_mem_replicate hs
    subst this
    intro i j hi hj hne hvi
    rw [getD_replicate] at hvi
    simp only [List.length_replicate] at hi
    rw [if_pos hi] at hvi
    simp at hvi
  generalize (addrs.map fun a => clampBigIntToBits a cfg.addrBits) = as
  suffices H : ∀ (bs : List Nat) (st : CacheState), SetsInv st.sets →
      SetsInv ((cacheRun cfg st bs).1).sets by
    exact H as ⟨initCache cfg.numSets cfg.assoc, 0, 0, 0⟩ hinit
  intro bs
  induction bs with
  | nil => intro st hst; exact hst
  | cons b bs2 ih =>
    intro st hst
    rw [cacheRun_state_cons]
    exact ih _ (cacheAccess_setsInv cfg st b hst)

/-! ## vm.js -/

/-- A TLB line:
`{ valid: false, tag: 0n, ppn: 0n, flags: "", lastUsed: 0 }`. -/
structure TlbLine where
  valid : Bool
  tag : Nat
  ppn : Nat
  flags : String
  lastUsed : Nat
deriving DecidableEq, Repr

instance : Inhabited TlbLine := ⟨⟨false, 0, 0, "", 0⟩⟩

/-- vm.js `initTLB`: `numSets` sets of `assoc` invalid lines. -/
def initTLB (numSets assoc : Nat) : List (List TlbLine) :=
  List.replicate numSets (List.replicate assoc ⟨false, 0, 0, "", 0⟩)

/-- A page-table entry `{ppn, flags}`. -/
structure Pte where
  ppn : Nat
  flags : String
deriving DecidableEq, Repr

/-- The page table: the contents of the JS `Map` after population (unique
VPN keys; population with `Map.set` is modelled by the construction of the
list).  `ptGet` models `pageTable.get(vpn)` as a first-match scan. -/
def ptGet (pt : List (Nat × Pte)) (vpn : Nat) : Option Pte :=
  (pt.find? (fun e => e.1 == vpn)).map (fun e => e.2)

/-- The derived vm configuration: bit split, physical width, and the TLB
geometry (`tlbEnabled = false` leaves the TLB fields unused, matching
`tlbSets = null`). -/
structure VmConfig where
  offsetBits : Nat
  vpnBits : Nat
  paBits : Nat
  tlbEnabled : Bool
  tlbIndexBits : Nat
deriving DecidableEq, Repr

/-- The mutable state of a vm run.  The page table is threaded through the
state to express frame conditions; the simulation loop only ever reads it. -/
structure VmState where
  tlbSets : List (List TlbLine)
  pageTable : List (Nat × Pte)
  time : Nat
  tlbHits : Nat
  tlbMisses : Nat
  ptHits : Nat
  ptMisses : Nat
deriving DecidableEq, Repr

/-- One per-access record of the vm trace: decomposed fields, lookup path,
and physical address (`pa = none` is the `— (page fault / unmapped)`
marker; `tlbHit = none` means the TLB is disabled). -/
structure VmRecord where
  vpn : Nat
  offset : Nat
  tlbHit : Option Bool
  ppn : Option Nat
  flags : String
  pa : Option Nat
deriving DecidableEq, Repr

/-- Models `idx = tlbIndexBits === 0 ? 0n : vpn & maskBits(tlbIndexBits)`. -/
def tlbIndexOf (cfg : VmConfig) (vpn : Nat) : Nat :=
  if cfg.tlbIndexBits = 0 then 0 else vpn &&& maskBits cfg.tlbIndexBits

/-- Models `tlbTag = vpn >> BigInt(tlbIndexBits)`. -/
def tlbTagOf (cfg : VmConfig) (vpn : Nat) : Nat := vpn >>> cfg.tlbIndexBits

/-- One iteration of the access loop of vm.js `compute` (lines 475–585):
VPN/offset split, optional TLB lookup with LRU fill from the page table,
page-table lookup on TLB miss, physical-address computation. -/
def vmStep (cfg : VmConfig) (st : VmState) (va : Nat) : VmState × VmRecord :=
  let time := st.time + 1
  let offset := va &&& maskBits cfg.offsetBits
  let vpn := va >>> cfg.offsetBits
  if cfg.tlbEnabled then
    let idx := tlbIndexOf cfg vpn
    let tag := tlbTagOf cfg vpn
    let setLines := st.tlbSets.getD idx []
    match findFirstIdx (fun ln => ln.valid && ln.tag == tag) setLines with
    | some w =>
      let ln := setLines.getD w ⟨false, 0, 0, "", 0⟩
      let setLines2 := setLines.set w ⟨ln.valid, ln.tag, ln.ppn, ln.flags, time⟩
      let pa := clampBigIntToBits ((ln.ppn <<< cfg.offsetBits) ||| offset) cfg.paBits
      (⟨st.tlbSets.set idx setLines2, st.pageTable, time,
        st.tlbHits + 1, st.tlbMisses, st.ptHits, st.ptMisses⟩,
       ⟨vpn, offset, some true, some ln.ppn, ln.flags, some pa⟩)
    | none =>
      match ptGet st.pageTable vpn with
      | none =>
        (⟨st.tlbSets, st.pageTable, time,
          st.tlbHits, st.tlbMisses + 1, st.ptHits, st.ptMisses + 1⟩,
         ⟨vpn, offset, some false, none, "", none⟩)
      | some e =>
        let victim := pickVictimLRU (fun l : TlbLine => l.valid)
          (fun l : TlbLine => l.lastUsed) setLines
        let setLines2 := setLines.set victim ⟨true, tag, e.ppn, e.flags, time⟩
        let pa := clampBigIntToBits ((e.ppn <<< cfg.offsetBits) ||| offset) cfg.paBits
        (⟨st.tlbSets.set idx setLines2, st.pageTable, time,
          st.tlbHits, st.tlbMisses + 1, st.ptHits + 1, st.ptMisses⟩,
         ⟨vpn, offset, some false, some e.ppn, e.flags, some pa⟩)
  else
    match ptGet st.pageTable vpn with
    | none =>
      (⟨st.tlbSets, st.pageTable, time,
        st.tlbHits, st.tlbMisses, st.ptHits, st.ptMisses + 1⟩,
       ⟨vpn, offset, none, none, "", none⟩)
    | some e =>
      let pa := clampBigIntToBits ((e.ppn <<< cfg.offsetBits) ||| offset) cfg.paBits
      (⟨st.tlbSets, st.pageTable, time,
        st.tlbHits, st.tlbMisses, st.ptHits + 1, st.ptMisses⟩,
       ⟨vpn, offset, none, some e.ppn, e.flags, some pa⟩)

/-- The access loop of vm.js `compute`, accumulating the trace. -/
def vmRun (cfg : VmConfig) (st0 : VmState) (addrs : List Nat) :
    VmState × List VmRecord :=
  addrs.foldl
    (fun acc a =>
      let step := vmStep cfg acc.1 a
      (step.1, acc.2 ++ [step.2]))
    (st0, [])

/-- A complete vm run, with the addresses clamped to `vaBits`
(`vaBits = offsetBits + vpnBits`) first as in `compute`. -/
def vmSimulate (cfg : VmConfig) (st0 : VmState) (addrs : List Nat) :
    VmState × List VmRecord :=
  vmRun cfg st0 (addrs.map (fun a => clampBigIntToBits a (cfg.offsetBits + cfg.vpnBits)))

/-- vm.js `compute` configuration validation (lines 409–419): bit-width
range checks, the power-of-two check on `pageSize`, and the
`offsetBits`/`vpnBits` derivation. -/
def vmDeriveSplit (vaBits paBits pageSize : Int) : Except String (Nat × Nat) :=
  if vaBits ≤ 0 || 64 < vaBits then .error ("vaBits must be between 1 and 64.")
  else if paBits ≤ 0 || 64 < paBits then .error ("paBits must be between 1 and 64.")
  else if !isPowerOfTwo pageSize then .error ("pageSize must be a power of two.")
  else
    match log2IntPow2 pageSize with
    | .error e => .error e
    | .ok offsetBits =>
      let vpnBits : Int := vaBits - offsetBits
      if vpnBits ≤ 0 then .error ("Invalid split: vpnBits <= 0 (pageSize too large for VA).")
      else .ok (offsetBits, vpnBits.toNat)

/-- Claim C1 (code bug witness).  `isPowerOfTwo` accepts `2^32 + 1` even
though it is not a power of two (the JS `&` truncates both operands to 32
bits, so `(2^32+1) & 2^32` evaluates to `1 & 0 = 0`); `log2IntPow2` does not
raise on it but returns 32; and the virtual-memory configuration validation
consequently accepts `pageSize = 2^32 + 1` instead of raising a ConfigError,
silently computing the split `offsetBits = 32`, `vpnBits = 32`. -/
theorem c1_isPowerOfTwo_bug :
    isPowerOfTwo ((2 : Int) ^ 32 + 1) = true ∧
    (∀ k : Nat, (2 : Int) ^ 32 + 1 ≠ 2 ^ k) ∧
    log2IntPow2 ((2 : Int) ^ 32 + 1) = .ok 32 ∧
    vmDeriveSplit 64 64 ((2 : Int) ^ 32 + 1) = .ok (32, 32) := by
  refine ⟨by decide, ?_, by rfl, by rfl⟩
  intro k h
  rcases le_or_lt k 32 with hk | hk
  · have : (2 : Int) ^ k ≤ 2 ^ 32 := pow_le_pow_right₀ (by norm_num) hk
    omega
  · have h33 : (33 : Nat) ≤ k := hk
    have : (2 : Int) ^ 33 ≤ 2 ^ k := pow_le_pow_right₀ (by norm_num) h33
    have h233 : (2 : Int) ^ 33 = 2 ^ 32 * 2 := by ring
    have h232 : (0 : Int) < 2 ^ 32 := by positivity
    omega

/-! ## Claims C4 and C6 -/

/-- The trace of a vm run has exactly one record per processed address
(faults are recorded inline and never abort the loop). -/
theorem vmRun_trace_length (cfg : VmConfig) :
    ∀ (addrs : List Nat) (st : VmState) (rs : List VmRecord),
      (addrs.foldl
        (fun acc a =>
          let step := vmStep cfg acc.1 a
          (step.1, acc.2 ++ [step.2])) (st, rs)).2.length = rs.length + addrs.length := by
  intro addrs
  induction addrs with
  | nil => intro st rs; simp
  | cons a as ih =>
    intro st rs
    simp only [List.foldl_cons]
    rw [ih]
    simp
    omega

/-- The configuration, page table, and address list of the TLB + page-table
scenario (TLB disabled, `{VPN 0x1 → PPN 0xA, flags RWX}`). -/
def vmScenarioCfg : VmConfig := ⟨12, 20, 32, false, 0⟩

/-- The scenario start state: no TLB, page table `{0x1 ↦ (0xA, RWX)}`. -/
def vmScenarioState : VmState := ⟨[], [(0x1, ⟨0xA, "RWX"⟩)], 0, 0, 0, 0, 0⟩

/-- Claim C4: whenever a vm access resolves (reports some `ppn`), the reported
physical address is `clampToBits((ppn << offsetBits) | offset, paBits)`;
and concretely, with `vaBits=32, paBits=32, pageSize=4096`, TLB disabled and
page table `{0x1 ↦ 0xA}`, address `0x00001004` gives `vpn=0x1, offset=0x004`,
a page-table hit and physical address `0x0000A004`. -/
theorem c4_resolved_physical_address (cfg : VmConfig) (st : VmState) (va p : Nat)
    (h : (vmStep cfg st va).2.ppn = some p) :
    (vmStep cfg st va).2.pa =
      some (clampBigIntToBits ((p <<< cfg.offsetBits) ||| (vmStep cfg st va).2.offset)
        cfg.paBits) ∧
    vmDeriveSplit 32 32 4096 = .ok (12, 20) ∧
    (vmSimulate vmScenarioCfg vmScenarioState [0x00001004]).2 =
      [⟨0x1, 0x004, none, some 0xA, "RWX", some 0x0000A004⟩] ∧
    (vmSimulate vmScenarioCfg vmScenarioState [0x00001004]).1.ptHits = 1 := by
  refine ⟨?_, by rfl, by rfl, by rfl⟩
  cases hE : cfg.tlbEnabled with
  | true =>
    cases hf : findFirstIdx
        (fun ln => ln.valid && ln.tag == tlbTagOf cfg (va >>> cfg.offsetBits))
        (st.tlbSets.getD (tlbIndexOf cfg (va >>> cfg.offsetBits)) []) with
    | some w =>
      simp only [vmStep, hE, if_true, hf] at h ⊢
      obtain rfl : _ = p := Option.some_injective _ h
      rfl
    | none =>
      cases hp : ptGet st.pageTable (va >>> cfg.offsetBits) with
      | none =>
        simp only [vmStep, hE, if_true, hf, hp] at h
        exact Option.noConfusion h
      | some e =>
        simp only [vmStep, hE, if_true, hf, hp] at h ⊢
        obtain rfl : _ = p := Option.some_injective _ h
        rfl
  | false =>
    cases hp : ptGet st.pageTable (va >>> cfg.offsetBits) with
    | none =>
      simp only [vmStep, hE, Bool.false_eq_true, if_false, hp] at h
      exact Option.noConfusion h
    | some e =>
      simp only [vmStep, hE, Bool.false_eq_true, if_false, hp] at h ⊢
      obtain rfl : _ = p := Option.some_injective _ h
      rfl

/-- Witness for C4 at the scenario access. -/
theorem c4_witness :
    (vmStep vmScenarioCfg vmScenarioState 0x00001004).2.ppn = some 0xA ∧
    ((vmStep vmScenarioCfg vmScenarioState 0x00001004).2.pa =
      some (clampBigIntToBits
        ((0xA <<< vmScenarioCfg.offsetBits) |||
          (vmStep vmScenarioCfg vmScenarioState 0x00001004).2.offset)
        vmScenarioCfg.paBits) ∧
    vmDeriveSplit 32 32 4096 = .ok (12, 20) ∧
    (vmSimulate vmScenarioCfg vmScenarioState [0x00001004]).2 =
      [⟨0x1, 0x004, none, some 0xA, "RWX", some 0x0000A004⟩] ∧
    (vmSimulate vmScenarioCfg vmScenarioState [0x00001004]).1.ptHits = 1) :=
  ⟨by rfl, c4_resolved_physical_address vmScenarioCfg vmScenarioState 0x00001004 0xA (by rfl)⟩

/-- The TLB geometry of the C6 counterexample: 16 entries, 4-way, so 4 sets
and `tlbIndexBits = 2`; `vaBits=32, paBits=32, pageSize=4096`. -/
def c6Cfg : VmConfig := ⟨12, 20, 32, true, 2⟩

/-- A pre-seeded state (the seeding feature of vm.js `applyTlbInitRows`
produces it from the row `{set:1, way:0, tag:0x1, ppn:0xB, flags:RWX,
lastUsed:10}`): the TLB carries a translation for VPN 0x5
(`tag = 5 >> 2 = 1`, `idx = 5 & 3 = 1`) while the page table is empty. -/
def c6State : VmState :=
  ⟨[List.replicate 4 ⟨false, 0, 0, "", 0⟩,
    ⟨true, 0x1, 0xB, "RWX", 10⟩ :: List.replicate 3 ⟨false, 0, 0, "", 0⟩,
    List.replicate 4 ⟨false, 0, 0, "", 0⟩,
    List.replicate 4 ⟨false, 0, 0, "", 0⟩], [], 0, 0, 0, 0, 0⟩

/-- Claim C6 counterexample: address `0x00005000` has VPN `0x5` absent from
the page table, yet the access does not fault — the seeded TLB hits, a
physical address `0xB000` is reported, and the page-table-miss counter stays
at 0, contradicting the claim that every access with an unmapped VPN records
a fault and increments the counter. -/
theorem c6_counterexample :
    ptGet c6State.pageTable 0x5 = none ∧
    (clampBigIntToBits 0x00005000 32) >>> c6Cfg.offsetBits = 0x5 ∧
    (vmStep c6Cfg c6State 0x00005000).2.pa = some 0xB000 ∧
    (vmStep c6Cfg c6State 0x00005000).2.ppn = some 0xB ∧
    (vmStep c6Cfg c6State 0x00005000).1.ptMisses = 0 :=
  ⟨rfl, rfl, rfl, rfl, rfl⟩

/-- Claim C6, amended: for every access that reaches the page-table lookup —
the TLB is disabled or its lookup misses — and whose VPN is absent from the
page table, the step records a fault with no physical address and no PPN,
increments the page-table-miss counter by exactly one, leaves every TLB line
and the page table unchanged, and leaves the page-table-hit counter
untouched; and the run always continues (one trace record per address). -/
theorem c6_fault_frame (cfg : VmConfig) (st : VmState) (va : Nat)
    (hmiss : cfg.tlbEnabled = false ∨
      findFirstIdx (fun ln => ln.valid && ln.tag == tlbTagOf cfg (va >>> cfg.offsetBits))
        (st.tlbSets.getD (tlbIndexOf cfg (va >>> cfg.offsetBits)) []) = none)
    (habsent : ptGet st.pageTable (va >>> cfg.offsetBits) = none) :
    (vmStep cfg st va).2.pa = none ∧
    (vmStep cfg st va).2.ppn = none ∧
    (vmStep cfg st va).1.ptMisses = st.ptMisses + 1 ∧
    (vmStep cfg st va).1.tlbSets = st.tlbSets ∧
    (vmStep cfg st va).1.pageTable = st.pageTable ∧
    (vmStep cfg st va).1.ptHits = st.ptHits ∧
    (∀ (st0 : VmState) (addrs : List Nat), (vmRun cfg st0 addrs).2.length = addrs.length) := by
  have hlen : ∀ (st0 : VmState) (addrs : List Nat),
      (vmRun cfg st0 addrs).2.length = addrs.length := by
    intro st0 addrs
    unfold vmRun
    rw [vmRun_trace_length]
    simp
  cases hE : cfg.tlbEnabled with
  | false =>
    refine ⟨?_, ?_, ?_, ?_, ?_, ?_, hlen⟩ <;>
      simp only [vmStep, hE, Bool.false_eq_true, if_false, habsent]
  | true =>
    rcases hmiss with hdis | hf
    · rw [hE] at hdis; cases hdis
    · refine ⟨?_, ?_, ?_, ?_, ?_, ?_, hlen⟩ <;>
        simp only [vmStep, hE, if_true, hf, habsent]

/-- Witness for the amended C6: the unmapped-fault scenario (TLB disabled,
address `0x00005000`, empty-page-table VPN `0x5`). -/
theorem c6_witness :
    ((vmScenarioCfg.tlbEnabled = false ∨
      findFirstIdx
        (fun ln => ln.valid &&
          ln.tag == tlbTagOf vmScenarioCfg ((0x00005000 : Nat) >>> vmScenarioCfg.offsetBits))
        (vmScenarioState.tlbSets.getD
          (tlbIndexOf vmScenarioCfg ((0x00005000 : Nat) >>> vmScenarioCfg.offsetBits)) []) =
        none) ∧
    ptGet vmScenarioState.pageTable ((0x00005000 : Nat) >>> vmScenarioCfg.offsetBits) = none) ∧
    ((vmStep vmScenarioCfg vmScenarioState 0x00005000).2.pa = none ∧
    (vmStep vmScenarioCfg vmScenarioState 0x00005000).2.ppn = none ∧
    (vmStep vmScenarioCfg vmScenarioState 0x00005000).1.ptMisses =
      vmScenarioState.ptMisses + 1 ∧
    (vmStep vmScenarioCfg vmScenarioState 0x00005000).1.tlbSets = vmScenarioState.tlbSets ∧
    (vmStep vmScenarioCfg vmScenarioState 0x00005000).1.pageTable =
      vmScenarioState.pageTable ∧
    (vmStep vmScenarioCfg vmScenarioState 0x00005000).1.ptHits = vmScenarioState.ptHits ∧
    (∀ (st0 : VmState) (addrs : List Nat),
      (vmRun vmScenarioCfg st0 addrs).2.length = addrs.length)) :=
  ⟨⟨Or.inl rfl, rfl⟩,
    c6_fault_frame vmScenarioCfg vmScenarioState 0x00005000 (Or.inl rfl) rfl⟩

/-! ## Address-list tokenisation and the number parser (claims C8, C10) -/

/-- Split a character list at newline characters (every piece, including a
trailing empty one, is kept — JS `split`). -/
def splitOnNl : List Char → List (List Char)
  | [] => [[]]
  | c :: cs =>
    if c = '\n' then [] :: splitOnNl cs
    else
      match splitOnNl cs with
      | [] => [[c]]
      | t :: ts => (c :: t) :: ts

/-- Remove one trailing carriage return (so that splitting at `'\n'` models
the JS split at `/\r?\n/`). -/
def dropCr (l : List Char) : List Char :=
  match l.getLast? with
  | some c => if c = '\r' then l.dropLast else l
  | none => l

/-- vm.js address tokenisation:
`split(/\r?\n/).map(x => x.trim()).filter(x => x.length > 0)`. -/
def tokenizeLines (text : List Char) : List (List Char) :=
  (((splitOnNl text).map dropCr).map trimChars).filter (fun l => !l.isEmpty)

/-- JS `Array.prototype.map` over a throwing function: the first failure
aborts with its error. -/
def mapExcept {α β : Type} (f : α → Except String β) : List α → Except String (List β)
  | [] => .ok []
  | a :: as =>
    match f a with
    | .error e => .error e
    | .ok b =>
      match mapExcept f as with
      | .error e => .error e
      | .ok bs => .ok (b :: bs)

/-- The Bool form of "this token makes `parseHexToBigInt` throw" for a
non-blank token: after preprocessing, the remainder is empty or contains a
non-hex-digit character. -/
def hexTokenBad (t : List Char) : Bool :=
  (processedHex t).isEmpty || (processedHex t).any (fun c => !isHexDigitC c)

/-- vm.js `compute` from configuration validation to the simulation run
(the page table is passed in already populated; no TLB seed rows).  The
order of the stages is the source order: bit-split validation, address
tokenisation and parsing, then TLB parameter validation, then the run. -/
def vmComputeRun (vaBits paBits pageSize : Int) (addressesText : List Char)
    (pt : List (Nat × Pte)) (enableTLB : Bool) (tlbEntries tlbAssoc : Int) :
    Except String (VmState × List VmRecord) :=
  match vmDeriveSplit vaBits paBits pageSize with
  | .error e => .error e
  | .ok split =>
    let toks := tokenizeLines addressesText
    if toks.isEmpty then .error ("Provide at least one virtual address.")
    else
      match mapExcept parseHexToBigInt toks with
      | .error e => .error e
      | .ok raw =>
        let addrs := raw.map (fun a => clampBigIntToBits a vaBits.toNat)
        if enableTLB then
          if tlbEntries ≤ 0 then .error ("tlbEntries must be > 0")
          else if tlbAssoc ≤ 0 then .error ("tlbAssoc must be > 0")
          else if tlbEntries % tlbAssoc ≠ 0 then
            .error ("TLB entries must be divisible by associativity")
          else
            let numSets := tlbEntries / tlbAssoc
            if !isPowerOfTwo numSets then .error ("TLB number of sets must be a power of two")
            else
              match (if numSets == 1 then .ok 0 else log2IntPow2 numSets :
                  Except String Nat) with
              | .error e => .error e
              | .ok tlbIndexBits =>
                if (split.2 : Int) - tlbIndexBits < 0 then
                  .error ("Invalid TLB split: tlbTagBits < 0")
                else
                  .ok (vmRun ⟨split.1, split.2, paBits.toNat, true, tlbIndexBits⟩
                    ⟨initTLB numSets.toNat tlbAssoc.toNat, pt, 0, 0, 0, 0, 0⟩ addrs)
        else
          .ok (vmRun ⟨split.1, split.2, paBits.toNat, false, 0⟩ ⟨[], pt, 0, 0, 0, 0, 0⟩ addrs)

/-- Models `/^0x/i.test(t)`. -/
def startsWith0x : List Char → Bool
  | a :: b :: _ => a == '0' && (b == 'x' || b == 'X')
  | _ => false

/-- Models `/^0x[0-9a-f]+$/i.test(t)`. -/
def numTokM1 : List Char → Bool
  | a :: b :: rest => a == '0' && (b == 'x' || b == 'X') && !rest.isEmpty && rest.all isHexDigitCI
  | _ => false

/-- Models `/^[0-9a-f]+$/i.test(t)`. -/
def numTokM2 (t : List Char) : Bool := !t.isEmpty && t.all isHexDigitCI

/-- Models `const isHex = /^0x/i.test(t) || /[a-f]/i.test(t)`. -/
def numTokIsHex (t : List Char) : Bool := startsWith0x t || t.any isHexLetterCI

/-- vm.js `parseNumToBigInt` (used for page-table mapping and seed-row
tokens): hex-looking tokens with a `0x` prefix or a hex letter are parsed as
hex; otherwise the token must be all decimal digits and is parsed in base
10. -/
def parseNumToBigInt (s : List Char) (name : String) : Except String Nat :=
  if (trimChars s).isEmpty then .error ("Missing " ++ name)
  else if (numTokM1 (trimChars s) || numTokM2 (trimChars s)) &&
      numTokIsHex (trimChars s) then parseHexToBigInt (trimChars s)
  else if !(trimChars s).isEmpty && (trimChars s).all isDigitC then
    .ok (decVal (trimChars s))
  else .error ("Invalid " ++ name ++ ": \"" ++ String.mk s ++ "\"")

/-- Lemma: `dropWhile` never removes an element that fails the predicate. -/
theorem mem_dropWhile_of_not {α : Type} (p : α → Bool) (c : α) :
    ∀ (l : List α), c ∈ l → p c = false → c ∈ l.dropWhile p := by
  intro l
  induction l with
  | nil => intro h; simp at h
  | cons a as ih =>
    intro hc hpc
    by_cases hpa : p a
    · rw [List.dropWhile_cons_of_pos hpa]
      rcases List.mem_cons.mp hc with rfl | hc2
      · rw [hpc] at hpa; cases hpa
      · exact ih hc2 hpc
    · rw [List.dropWhile_cons_of_neg hpa]
      exact hc

/-- The head of a non-empty `dropWhile` result fails the predicate. -/
theorem dropWhile_head_not {α : Type} (p : α → Bool) :
    ∀ (l : List α) (a : α) (as : List α), l.dropWhile p = a :: as → p a = false := by
  intro l
  induction l with
  | nil => intro a as h; simp at h
  | cons b bs ih =>
    intro a as h
    by_cases hpb : p b
    · rw [List.dropWhile_cons_of_pos hpb] at h
      exact ih a as h
    · rw [List.dropWhile_cons_of_neg hpb] at h
      obtain ⟨rfl, _⟩ := List.cons.inj h
      exact eq_false_of_ne_true hpb

/-- A non-empty trimmed token contains a non-whitespace character. -/
theorem trim_result_has_nonws (u : List Char) (hne : trimChars u ≠ []) :
    ∃ c ∈ trimChars u, isJsWs c = false := by
  unfold trimChars at hne ⊢
  cases hB : (u.dropWhile isJsWs).reverse.dropWhile isJsWs with
  | nil => rw [hB] at hne; simp at hne
  | cons b bs =>
    refine ⟨b, ?_, dropWhile_head_not isJsWs _ b bs hB⟩
    simp

/-- Trimming a list that contains a non-whitespace character is non-empty. -/
theorem trimChars_ne_nil (l : List Char) (c : Char) (hc : c ∈ l) (hw : isJsWs c = false) :
    trimChars l ≠ [] := by
  have h1 : c ∈ l.dropWhile isJsWs := mem_dropWhile_of_not isJsWs c l hc hw
  have h2 : c ∈ (l.dropWhile isJsWs).reverse := List.mem_reverse.mpr h1
  have h3 : c ∈ (l.dropWhile isJsWs).reverse.dropWhile isJsWs :=
    mem_dropWhile_of_not isJsWs c _ h2 hw
  have h4 : c ∈ trimChars l := by
    unfold trimChars
    exact List.mem_reverse.mpr h3
  intro hcontra
  rw [hcontra] at h4
  simp at h4

/-- Every token the tokenizer produces is non-empty and still non-empty
after the re-trim inside `parseHexToBigInt`. -/
theorem token_trim_ne_nil (text : List Char) (t : List Char)
    (ht : t ∈ tokenizeLines text) : t ≠ [] ∧ trimChars t ≠ [] := by
  unfold tokenizeLines at ht
  obtain ⟨hmem, hkeep⟩ := List.mem_filter.mp ht
  have hne : t ≠ [] := by simpa using hkeep
  obtain ⟨u, _, rfl⟩ := List.mem_map.mp hmem
  obtain ⟨c, hc, hw⟩ := trim_result_has_nonws u hne
  exact ⟨hne, trimChars_ne_nil _ c hc hw⟩

/-- A bad token (per `hexTokenBad`) makes `parseHexToBigInt` throw the
invalid-hex error naming the raw token. -/
theorem parseHex_error_of_bad (t : List Char) (hne : trimChars t ≠ [])
    (hbad : hexTokenBad t = true) : parseHexToBigInt t = .error (invalidHexMsg t) := by
  unfold parseHexToBigInt
  have hmapne : ((trimChars t).map Char.toLower).isEmpty = false := by
    simp only [List.isEmpty_eq_false]
    simpa using hne
  rw [hmapne]
  simp only [Bool.false_eq_true, if_false]
  have hcond : (!(processedHex t).isEmpty && (processedHex t).all isHexDigitC) = false := by
    unfold hexTokenBad at hbad
    rcases Bool.or_eq_true_iff.mp hbad with h | h
    · rw [h]; rfl
    · obtain ⟨c, hc, hcbad⟩ := List.any_eq_true.mp h
      have hall : (processedHex t).all isHexDigitC = false := by
        rw [← Bool.not_eq_true]
        intro hall
        have := List.all_eq_true.mp hall c hc
        rw [this] at hcbad
        simp at hcbad
      rw [hall]
      simp
  rw [hcond]
  rfl

/-- A good token (per `hexTokenBad`) parses to the value of its processed
hex digits. -/
theorem parseHex_ok_of_good (t : List Char) (hne : trimChars t ≠ [])
    (hgood : hexTokenBad t = false) :
    parseHexToBigInt t = .ok (hexVal (processedHex t)) := by
  unfold parseHexToBigInt
  have hmapne : ((trimChars t).map Char.toLower).isEmpty = false := by
    simp only [List.isEmpty_eq_false]
    simpa using hne
  rw [hmapne]
  simp only [Bool.false_eq_true, if_false]
  unfold hexTokenBad at hgood
  rw [Bool.or_eq_false_iff] at hgood
  obtain ⟨h1, h2⟩ := hgood
  rw [h1]
  have hall : (processedHex t).all isHexDigitC = true := by
    rw [List.all_eq_true]
    intro c hc
    have := List.any_eq_false.mp h2 c hc
    simpa using this
  rw [hall]
  rfl

/-- Lemma: `mapExcept` over the address tokens throws the error of the first bad
token when one exists. -/
theorem mapExcept_error_first :
    ∀ (toks : List (List Char)), (∀ t ∈ toks, trimChars t ≠ []) →
      ∀ (t0 : List Char), toks.find? hexTokenBad = some t0 →
        mapExcept parseHexToBigInt toks = .error (invalidHexMsg t0) := by
  intro toks
  induction toks with
  | nil => intro _ t0 h; simp at h
  | cons h rest ih =>
    intro hne t0 hfind
    by_cases hb : hexTokenBad h
    · rw [List.find?_cons_of_pos _ hb] at hfind
      obtain rfl := Option.some_injective _ hfind
      unfold mapExcept
      rw [parseHex_error_of_bad h (hne h (by simp)) hb]
    · rw [List.find?_cons_of_neg _ (by simpa using hb)] at hfind
      unfold mapExcept
      rw [parseHex_ok_of_good h (hne h (by simp)) (by simpa using hb)]
      rw [ih (fun t htm => hne t (List.mem_cons_of_mem _ htm)) t0 hfind]

/-- Claim C8: if the address list contains a malformed literal (a token whose
preprocessed form contains a character outside `[0-9a-fA-F]`), the whole vm
run aborts with the single error message naming the (first) offending raw
token; no per-access records or statistics are produced (the result is the
error alone). -/
theorem c8_parse_error_aborts (vaBits paBits pageSize : Int) (text : List Char)
    (pt : List (Nat × Pte)) (enableTLB : Bool) (tlbEntries tlbAssoc : Int)
    (ob vb : Nat) (hcfg : vmDeriveSplit vaBits paBits pageSize = .ok (ob, vb))
    (t : List Char) (ht : t ∈ tokenizeLines text)
    (hbad : ∃ c ∈ processedHex t, isHexDigitC c = false) :
    ∃ t0 ∈ tokenizeLines text,
      (tokenizeLines text).find? hexTokenBad = some t0 ∧
      vmComputeRun vaBits paBits pageSize text pt enableTLB tlbEntries tlbAssoc =
        .error (invalidHexMsg t0) := by
  have htbad : hexTokenBad t = true := by
    unfold hexTokenBad
    obtain ⟨c, hc, hcb⟩ := hbad
    have : (processedHex t).any (fun c => !isHexDigitC c) = true :=
      List.any_eq_true.mpr ⟨c, hc, by simp [hcb]⟩
    rw [this]
    simp
  obtain ⟨t0, hfind⟩ : ∃ t0, (tokenizeLines text).find? hexTokenBad = some t0 := by
    cases hf : (tokenizeLines text).find? hexTokenBad with
    | some t0 => exact ⟨t0, rfl⟩
    | none =>
      have := List.find?_eq_none.mp hf t ht
      rw [htbad] at this
      simp at this
  have ht0 : t0 ∈ tokenizeLines text := List.mem_of_find?_eq_some hfind
  have hnonempty : (tokenizeLines text).isEmpty = false := by
    simp only [List.isEmpty_eq_false]
    intro hcontra
    rw [hcontra] at ht
    simp at ht
  have hmap : mapExcept parseHexToBigInt (tokenizeLines text) = .error (invalidHexMsg t0) :=
    mapExcept_error_first (tokenizeLines text)
      (fun u hu => (token_trim_ne_nil text u hu).2) t0 hfind
  refine ⟨t0, ht0, hfind, ?_⟩
  unfold vmComputeRun
  rw [hcfg]
  simp only [hnonempty, Bool.false_eq_true, if_false, hmap]

/-- Witness for C8: the address list `"0x10\nzz"` contains the malformed
token `"zz"`; the run aborts with the message naming it. -/
theorem c8_witness :
    vmDeriveSplit 32 32 4096 = .ok (12, 20) ∧
    (['z', 'z'] ∈ tokenizeLines ("0x10\nzz".data)) ∧
    (∃ c ∈ processedHex ['z', 'z'], isHexDigitC c = false) ∧
    (∃ t0 ∈ tokenizeLines ("0x10\nzz".data),
      (tokenizeLines ("0x10\nzz".data)).find? hexTokenBad = some t0 ∧
      vmComputeRun 32 32 4096 ("0x10\nzz".data) [] false 16 4 =
        .error (invalidHexMsg t0)) :=
  ⟨by rfl, by decide, by decide,
    c8_parse_error_aborts 32 32 4096 ("0x10\nzz".data) [] false 16 4 12 20 (by rfl)
      ['z', 'z'] (by decide) (by decide)⟩

/-! ## Claim C10 -/

/-- Decimal digits are not whitespace. -/
theorem digit_not_ws (c : Char) (h : isDigitC c = true) : isJsWs c = false := by
  simp only [isDigitC, Bool.and_eq_true, decide_eq_true_eq] at h
  obtain ⟨h1, h2⟩ := h
  simp only [isJsWs, Bool.or_eq_false_iff, beq_eq_false_iff_ne]
  refine ⟨⟨⟨⟨⟨?_, ?_⟩, ?_⟩, ?_⟩, ?_⟩, ?_⟩ <;> (rintro rfl; revert h1; decide)

/-- Decimal digits are (case-insensitive) hex digits. -/
theorem digit_isHexDigitCI (c : Char) (h : isDigitC c = true) : isHexDigitCI c = true := by
  simp only [isDigitC, Bool.and_eq_true, decide_eq_true_eq] at h
  simp [isHexDigitCI, h.1, h.2]

/-- Decimal digits are not hex letters. -/
theorem digit_not_hexLetter (c : Char) (h : isDigitC c = true) : isHexLetterCI c = false := by
  simp only [isDigitC, Bool.and_eq_true, decide_eq_true_eq] at h
  obtain ⟨h1, h2⟩ := h
  have ha : ¬ ('a' ≤ c) := fun hc => absurd (le_trans hc h2) (by decide)
  have hA : ¬ ('A' ≤ c) := fun hc => absurd (le_trans hc h2) (by decide)
  simp [isHexLetterCI, ha, hA]

/-- Decimal digits are not `x` or `X`. -/
theorem digit_ne_xX (c : Char) (h : isDigitC c = true) : (c == 'x' || c == 'X') = false := by
  simp only [isDigitC, Bool.and_eq_true, decide_eq_true_eq] at h
  obtain ⟨h1, h2⟩ := h
  simp only [Bool.or_eq_false_iff, beq_eq_false_iff_ne]
  constructor <;> (rintro rfl; revert h2; decide)

/-- Lemma: `dropWhile` is the identity when no element satisfies the predicate. -/
theorem dropWhile_eq_self_of_not {α : Type} (p : α → Bool) (l : List α)
    (h : ∀ c ∈ l, p c = false) : l.dropWhile p = l := by
  cases l with
  | nil => rfl
  | cons a as =>
    have := h a (List.mem_cons_self a as)
    rw [List.dropWhile_cons_of_neg (by simp [this])]

/-- Trimming a whitespace-free token is the identity. -/
theorem trimChars_eq_self (l : List Char) (h : ∀ c ∈ l, isJsWs c = false) :
    trimChars l = l := by
  unfold trimChars
  rw [dropWhile_eq_self_of_not _ l h]
  rw [dropWhile_eq_self_of_not _ l.reverse (fun c hc => h c (List.mem_reverse.mp hc))]
  exact List.reverse_reverse l

/-- An all-digit token does not start with `0x`. -/
theorem startsWith0x_digits (t : List Char) (hd : ∀ c ∈ t, isDigitC c = true) :
    startsWith0x t = false := by
  match t with
  | [] => rfl
  | [a] => rfl
  | a :: b :: rest =>
    show (a == '0' && (b == 'x' || b == 'X')) = false
    rw [digit_ne_xX b (hd b (by simp))]
    simp

/-- Claim C10: the page-table/seed-row number parser reads an all-digit token
without `0x` prefix in base 10 and a `0x`-prefixed or letter-containing
hex-looking token in base 16, while the address parser reads every token in
base 16 — so the same text `"10"` denotes ten in a mapping list but sixteen
in the address list. -/
theorem c10_radix_split :
    (∀ (t : List Char) (name : String), t ≠ [] → (∀ c ∈ t, isDigitC c = true) →
      parseNumToBigInt t name = .ok (decVal t)) ∧
    (∀ (t : List Char) (name : String), trimChars t = t →
      (numTokM1 t || numTokM2 t) = true → numTokIsHex t = true →
      parseNumToBigInt t name = parseHexToBigInt t) ∧
    parseNumToBigInt ("10".data) ("VPN") = .ok 10 ∧
    parseHexToBigInt ("10".data) = .ok 16 := by
  refine ⟨?_, ?_, by rfl, by rfl⟩
  · intro t name hne hd
    have htr : trimChars t = t := trimChars_eq_self t (fun c hc => digit_not_ws c (hd c hc))
    unfold parseNumToBigInt
    rw [htr]
    have hie : t.isEmpty = false := by simpa using hne
    rw [hie]
    simp only [Bool.false_eq_true, if_false]
    have hhex : numTokIsHex t = false := by
      unfold numTokIsHex
      rw [startsWith0x_digits t hd]
      rw [List.any_eq_false.mpr
        (fun c hc => by rw [digit_not_hexLetter c (hd c hc)]; simp)]
      rfl
    rw [hhex]
    simp only [Bool.and_false, Bool.false_eq_true, if_false]
    have hall : t.all isDigitC = true := List.all_eq_true.mpr (fun c hc => hd c hc)
    rw [hall]
    rfl
  · intro t name htr hm hhex
    have hne : t.isEmpty = false := by
      cases t with
      | nil => simp [numTokM1, numTokM2] at hm
      | cons a as => rfl
    unfold parseNumToBigInt
    rw [htr, hne]
    simp only [Bool.false_eq_true, if_false]
    rw [hm, hhex]
    rfl

/-- Witness for C10: `"291"` parses as 291 (decimal) in the mapping parser,
`"0x123"` takes the hex branch. -/
theorem c10_witness :
    ((("291".data : List Char) ≠ []) ∧ (∀ c ∈ ("291".data : List Char), isDigitC c = true) ∧
      parseNumToBigInt ("291".data) ("VPN") = .ok (decVal "291".data)) ∧
    ((trimChars ("0x123".data) = "0x123".data) ∧
      ((numTokM1 ("0x123".data) || numTokM2 ("0x123".data)) = true) ∧
      (numTokIsHex ("0x123".data) = true) ∧
      parseNumToBigInt ("0x123".data) ("PPN") = parseHexToBigInt ("0x123".data)) :=
  ⟨⟨by decide, by decide,
      c10_radix_split.1 ("291".data) ("VPN") (by decide) (by decide)⟩,
    ⟨by decide, by decide, by decide,
      c10_radix_split.2.1 ("0x123".data) ("PPN") (by decide) (by decide) (by decide)⟩⟩
